import Mathlib

/-!
# Composer lock-file module resolution

A shallow embedding of `internal/modules/composer/composerLockFile.go`.

Go strings are embedded as Lean `String`s.  The two separators the file splits
on (`"/"` and `"v"`) are one-byte ASCII strings, so splitting the byte sequence
and splitting the character sequence cut a string at the same places.
Functions that return a Go pair `(value, error)` return a Lean pair whose second
component is `Option Error`, `none` standing for a nil error.  A Go slice that
may be `nil` is an `Option (List _)`, `none` standing for the nil slice.

The dependency-tree listing of the node-style parser, of which the repository
sources at hand hold only the test, is modelled in the namespace `Npm`.
-/

namespace Composer

/-! ## Library functions used by the source -/

/-- Segments of a character list cut at every occurrence of the separator `sep`:
the character-level worker of `strings.Split(s, sep)` for a one-character
separator.  The result always has at least one segment. -/
def splitChars (sep : Char) : List Char → List (List Char)
  | [] => [[]]
  | c :: cs =>
    if c = sep then [] :: splitChars sep cs
    else
      match splitChars sep cs with
      | [] => [[c]]
      | seg :: segs => (c :: seg) :: segs

/-- Go `strings.Split(s, sep)` for a separator `sep` that is one character long. -/
def stringsSplit (s : String) (sep : Char) : List String :=
  (splitChars sep s.data).map String.mk

/-- Go slice indexing `s[i]` on a slice of strings; the fallback value is only
there to make the function total and is never reached by the code below, which
indexes within bounds. -/
def idx (s : List String) (i : Nat) : String := s.getD i ""

/-- Go conversion `[]byte(s)` of one character: its UTF-8 encoding, as byte
values. -/
def utf8Bytes (c : Char) : List Nat :=
  let v := c.toNat
  if v < 0x80 then [v]
  else if v < 0x800 then [0xC0 + v / 64, 0x80 + v % 64]
  else if v < 0x10000 then [0xE0 + v / 4096, 0x80 + v / 64 % 64, 0x80 + v % 64]
  else [0xF0 + v / 262144, 0x80 + v / 4096 % 64, 0x80 + v / 64 % 64, 0x80 + v % 64]

/-- Go conversion `[]byte(s)`: the UTF-8 bytes of a string. -/
def stringBytes (s : String) : List Nat := s.data.flatMap utf8Bytes

/-- Rotate a 32-bit word left by `n` bits (`0 < n < 32`). -/
def rotl32 (x n : Nat) : Nat := ((x <<< n) ||| (x >>> (32 - n))) % 2 ^ 32

/-- Big-endian bytes of a 32-bit word. -/
def be32 (x : Nat) : List Nat :=
  [x / 2 ^ 24 % 256, x / 2 ^ 16 % 256, x / 2 ^ 8 % 256, x % 256]

/-- Big-endian bytes of a 64-bit word. -/
def be64 (x : Nat) : List Nat := be32 (x / 2 ^ 32 % 2 ^ 32) ++ be32 (x % 2 ^ 32)

/-- SHA-1 padding: the message, one `0x80` byte, zero bytes up to 56 modulo 64,
and the bit length of the message as a 64-bit big-endian number. -/
def sha1Pad (msg : List Nat) : List Nat :=
  msg ++ [0x80] ++ List.replicate ((119 - msg.length % 64) % 64) 0
    ++ be64 (8 * msg.length % 2 ^ 64)

/-- Big-endian 32-bit words of a byte list, four bytes a word. -/
def wordsOf : List Nat → List Nat
  | b0 :: b1 :: b2 :: b3 :: rest =>
    (b0 * 2 ^ 24 + b1 * 2 ^ 16 + b2 * 2 ^ 8 + b3) :: wordsOf rest
  | _ => []

/-- SHA-1 message schedule: `n` more words appended to the words so far, each
the one-bit rotation of the xor of the words 3, 8, 14 and 16 places back. -/
def sha1Schedule : Nat → List Nat → List Nat
  | 0, w => w
  | n + 1, w =>
    let i := w.length
    let x := w.getD (i - 3) 0 ^^^ w.getD (i - 8) 0 ^^^ w.getD (i - 14) 0 ^^^ w.getD (i - 16) 0
    sha1Schedule n (w ++ [rotl32 x 1])

/-- The five 32-bit words of the SHA-1 chaining value. -/
structure Sha1State where
  h0 : Nat
  h1 : Nat
  h2 : Nat
  h3 : Nat
  h4 : Nat
  deriving DecidableEq, Repr

/-- SHA-1 initial chaining value. -/
def sha1Init : Sha1State :=
  { h0 := 0x67452301, h1 := 0xEFCDAB89, h2 := 0x98BADCFE, h3 := 0x10325476, h4 := 0xC3D2E1F0 }

/-- One SHA-1 round, number `i`, with schedule word `wi`. -/
def sha1Round (i wi : Nat) (s : Sha1State) : Sha1State :=
  let f :=
    if i < 20 then (s.h1 &&& s.h2) ||| ((s.h1 ^^^ 0xFFFFFFFF) &&& s.h3)
    else if i < 40 then s.h1 ^^^ s.h2 ^^^ s.h3
    else if i < 60 then (s.h1 &&& s.h2) ||| (s.h1 &&& s.h3) ||| (s.h2 &&& s.h3)
    else s.h1 ^^^ s.h2 ^^^ s.h3
  let k :=
    if i < 20 then 0x5A827999
    else if i < 40 then 0x6ED9EBA1
    else if i < 60 then 0x8F1BBCDC
    else 0xCA62C1D6
  { h0 := (rotl32 s.h0 5 + f + s.h4 + k + wi) % 2 ^ 32
    h1 := s.h0
    h2 := rotl32 s.h1 30
    h3 := s.h2
    h4 := s.h3 }

/-- The rounds of one block, from round `i` on, over the remaining schedule
words. -/
def sha1Rounds : Nat → List Nat → Sha1State → Sha1State
  | _, [], s => s
  | i, wi :: ws, s => sha1Rounds (i + 1) ws (sha1Round i wi s)

/-- SHA-1 compression of one 64-byte block into the chaining value. -/
def sha1Block (s : Sha1State) (block : List Nat) : Sha1State :=
  let t := sha1Rounds 0 (sha1Schedule 64 (wordsOf block)) s
  { h0 := (s.h0 + t.h0) % 2 ^ 32
    h1 := (s.h1 + t.h1) % 2 ^ 32
    h2 := (s.h2 + t.h2) % 2 ^ 32
    h3 := (s.h3 + t.h3) % 2 ^ 32
    h4 := (s.h4 + t.h4) % 2 ^ 32 }

/-- Fold the compression function over `n` consecutive 64-byte blocks. -/
def sha1Blocks : Nat → List Nat → Sha1State → Sha1State
  | 0, _, s => s
  | n + 1, bytes, s => sha1Blocks n (bytes.drop 64) (sha1Block s (bytes.take 64))

/-- Go `crypto/sha1`: `h := sha1.New(); h.Write(msg); h.Sum(nil)`, the 20-byte
SHA-1 digest of a byte list. -/
def sha1Sum (msg : List Nat) : List Nat :=
  let padded := sha1Pad msg
  let s := sha1Blocks (padded.length / 64) padded sha1Init
  be32 s.h0 ++ be32 s.h1 ++ be32 s.h2 ++ be32 s.h3 ++ be32 s.h4

/-- The lowercase hexadecimal digit of a value below 16. -/
def hexDigit (n : Nat) : Char := "0123456789abcdef".data.getD n '0'

/-- Go `hex.EncodeToString`: two lowercase hexadecimal digits a byte. -/
def hexEncodeToString (bytes : List Nat) : String :=
  String.mk (bytes.flatMap fun b => [hexDigit (b / 16), hexDigit (b % 16)])

/-! ## Data model -/

/-- Go `error` value. -/
structure Error where
  msg : String
  deriving DecidableEq, Repr

/-- Source `ComposerLockPackageAuthor`. -/
structure ComposerLockPackageAuthor where
  Name : String
  Email : String
  deriving DecidableEq, Repr

/-- Source `ComposerLockPackageSource`. -/
structure ComposerLockPackageSource where
  SourceType : String
  URL : String
  Reference : String
  deriving DecidableEq, Repr

/-- Source `ComposerLockPackageDist`. -/
structure ComposerLockPackageDist where
  DistType : String
  URL : String
  Reference : String
  Shasum : String
  deriving DecidableEq, Repr

/-- Source `ComposerLockPackage`. -/
structure ComposerLockPackage where
  Name : String
  Version : String
  PackageType : String
  Dist : ComposerLockPackageDist
  License : List String
  Description : String
  Source : ComposerLockPackageSource
  Authors : List ComposerLockPackageAuthor
  deriving DecidableEq, Repr

/-- Source `ComposerLockFile`. -/
structure ComposerLockFile where
  Packages : List ComposerLockPackage
  PackagesDev : List ComposerLockPackage
  deriving DecidableEq, Repr

/-- Modelled from the spec: the `models.HashAlgorithm` constants, declared in
the `models` package; the spec names the closed set by its members SHA1 and
SHA512. -/
inductive HashAlgorithm where
  | HashAlgoSHA1
  | HashAlgoSHA512
  deriving DecidableEq, Repr

/-- Modelled from the spec: the `models.CheckSum` record, an algorithm and a
value. -/
structure CheckSum where
  Algorithm : HashAlgorithm
  Value : String
  deriving DecidableEq, Repr

/-- Modelled from the spec: the `models.SupplierContact` record, name and
e-mail of a supplier. -/
structure SupplierContact where
  Name : String
  Email : String
  deriving DecidableEq, Repr

/-- Modelled from the spec: the `models.Module` record, with the fields the
spec lists for a Module.  `CheckSum` is a pointer in the source, so an absent
checksum is `none`; `Modules` is the map from dependency name to sub-module,
kept as an association list. -/
structure Module where
  Version : String
  Name : String
  Root : Bool
  PackageURL : String
  CheckSum : Option CheckSum
  Supplier : SupplierContact
  LocalPath : String
  LicenseDeclared : String
  LicenseConcluded : String
  Copyright : String
  CommentsLicense : String
  Modules : List (String × Module)

/-- Modelled from the spec: the license record the license collaborator
returns, an identifier, the extracted text and free-form comments. -/
structure License where
  ID : String
  ExtractedText : String
  Comments : String
  deriving DecidableEq, Repr

/-! ## Pure helpers of the source -/

/-- Source `getName`: split the module name on `"/"`; when there is more than one
segment return the segment at index 1, otherwise the segment at index 0. -/
def getName (moduleName : String) : String :=
  let s := stringsSplit moduleName '/'
  if s.length > 1 then idx s 1 else idx s 0

/-- Source `genComposerUrl`: the version argument is not used. -/
def genComposerUrl (name : String) (_version : String) : String :=
  "https://github.com/" ++ name ++ ".git"

/-- Source `normalizePackageVersion`: split on `"v"`; a non-empty first segment
returns the input as it is, otherwise the segment at index 1 when there is one,
otherwise the segment at index 0. -/
def normalizePackageVersion (version : String) : String :=
  let parts := stringsSplit version 'v'
  if idx parts 0 ≠ "" then version
  else if parts.length > 1 then idx parts 1
  else idx parts 0

/-- Source `genUrlFromComposerPackage`. -/
def genUrlFromComposerPackage (dep : ComposerLockPackage) : String :=
  let URL := dep.Dist.URL
  if URL ≠ "" then URL
  else genComposerUrl dep.Name dep.Version

/-- Source `readCheckSum`: the empty string for empty content, otherwise the
hexadecimal SHA-1 digest of the content's bytes. -/
def readCheckSum (content : String) : String :=
  if content = "" then ""
  else hexEncodeToString (sha1Sum (stringBytes content))

/-- Source `getCheckSumValue`. -/
def getCheckSumValue (module : ComposerLockPackage) : String :=
  let value := module.Dist.Shasum
  if value ≠ "" then value
  else readCheckSum (genUrlFromComposerPackage module)

/-- Source `getLocalPath`. -/
def getLocalPath (module : ComposerLockPackage) : String :=
  "./vendor/" ++ module.Name

/-- Source `getAuthor`. -/
def getAuthor (dep : ComposerLockPackage) : SupplierContact :=
  match dep.Authors with
  | [] => { Name := "", Email := "" }
  | author :: _ => { Name := author.Name, Email := author.Email }

/-! ## The surroundings of the source file -/

/-- What the source file takes from outside itself: the `helper` package (the
license collaborator), the file system and JSON decoder behind
`getComposerLockFileData`, the constant `COMPOSER_LOCK_FILE_NAME` and the
method `getProjectInfo`, all declared elsewhere.  They are parameters of the
model, one value per resolution call. -/
structure Env where
  /-- Constant `COMPOSER_LOCK_FILE_NAME`. -/
  COMPOSER_LOCK_FILE_NAME : String
  /-- Go `ioutil.ReadFile`: the bytes read and the error. -/
  readFile : String → String × Option Error
  /-- Go `json.Unmarshal(raw, &fileData)`: the decoded (on an error possibly
  partly filled) `fileData` and the error. -/
  jsonUnmarshal : String → ComposerLockFile × Option Error
  /-- Method `getProjectInfo`: the project's own module and the error. -/
  getProjectInfo : Module × Option Error
  /-- Collaborator `helper.GetLicenses`: a license record or an error. -/
  getLicenses : String → Except Error License
  /-- Collaborator `helper.BuildLicenseDeclared`. -/
  buildLicenseDeclared : String → String
  /-- Collaborator `helper.BuildLicenseConcluded`. -/
  buildLicenseConcluded : String → String
  /-- Collaborator `helper.GetCopyright`. -/
  getCopyright : String → String

/-- The zero value `ComposerLockFile{}`. -/
def ComposerLockFile.zero : ComposerLockFile := { Packages := [], PackagesDev := [] }

/-! ## Lock-file reading and module listing -/

/-- Source `getComposerLockFileData`: read the lock file and decode it; on
either error the zero lock file and that error. -/
def getComposerLockFileData (env : Env) : ComposerLockFile × Option Error :=
  match env.readFile env.COMPOSER_LOCK_FILE_NAME with
  | (_, some err) => (ComposerLockFile.zero, some err)
  | (raw, none) =>
    match env.jsonUnmarshal raw with
    | (_, some err) => (ComposerLockFile.zero, some err)
    | (fileData, none) => (fileData, none)

/-- Source `convertLockPackageToModule`: the module is built from the record,
and its four license fields are filled in only when the license collaborator
returns no error. -/
def convertLockPackageToModule (env : Env) (dep : ComposerLockPackage) : Module :=
  let module : Module :=
    { Version := normalizePackageVersion dep.Version
      Name := getName dep.Name
      Root := false
      PackageURL := genUrlFromComposerPackage dep
      CheckSum := some
        { Algorithm := HashAlgorithm.HashAlgoSHA1
          Value := getCheckSumValue dep }
      Supplier := getAuthor dep
      LocalPath := getLocalPath dep
      LicenseDeclared := ""
      LicenseConcluded := ""
      Copyright := ""
      CommentsLicense := ""
      Modules := [] }
  let path := getLocalPath dep
  match env.getLicenses path with
  | Except.ok licensePkg =>
    { module with
      LicenseDeclared := env.buildLicenseDeclared licensePkg.ID
      LicenseConcluded := env.buildLicenseConcluded licensePkg.ID
      Copyright := env.getCopyright licensePkg.ExtractedText
      CommentsLicense := licensePkg.Comments }
  | Except.error _ => module

/-- The loop `for _, pckg := range pkgs { modules = append(modules,
convertLockPackageToModule(pckg)) }` of the source. -/
def appendConverted (env : Env) (modules : List Module) (pkgs : List ComposerLockPackage) :
    List Module :=
  pkgs.foldl (fun acc pckg => acc ++ [convertLockPackageToModule env pckg]) modules

/-- Source `getModulesFromComposerLockFile`: the module slice (`none` for the
nil slice) and the error. -/
def getModulesFromComposerLockFile (env : Env) : Option (List Module) × Option Error :=
  let modules : List Module := []
  match getComposerLockFileData env with
  | (_, some err) => (none, some err)
  | (info, none) =>
    match env.getProjectInfo with
    | (_, some err) => (none, some err)
    | (mainMod, none) =>
      let modules := modules ++ [mainMod]
      let modules :=
        if info.Packages.length > 0 then appendConverted env modules info.Packages
        else modules
      let modules :=
        if info.PackagesDev.length > 0 then appendConverted env modules info.PackagesDev
        else modules
      (some modules, none)

/-! ## Sample inputs -/

/-- A package record with the given name, version, distribution URL and
distribution hash, and nothing else filled in. -/
def samplePackage (name version url shasum : String) : ComposerLockPackage :=
  { Name := name
    Version := version
    PackageType := "library"
    Dist := { DistType := "zip", URL := url, Reference := "", Shasum := shasum }
    License := []
    Description := ""
    Source := { SourceType := "git", URL := "", Reference := "" }
    Authors := [] }

/-- A root module for the sample projects. -/
def sampleRoot : Module :=
  { Version := "1.0.0"
    Name := "app"
    Root := true
    PackageURL := ""
    CheckSum := none
    Supplier := { Name := "", Email := "" }
    LocalPath := ""
    LicenseDeclared := ""
    LicenseConcluded := ""
    Copyright := ""
    CommentsLicense := ""
    Modules := [] }

/-- Surroundings in which the lock file reads and decodes to `lock`, the
project information is `root`, and no license is found for any path. -/
def sampleEnv (lock : ComposerLockFile) (root : Module) : Env :=
  { COMPOSER_LOCK_FILE_NAME := "composer.lock"
    readFile := fun _ => ("composer-lock-json", none)
    jsonUnmarshal := fun _ => (lock, none)
    getProjectInfo := (root, none)
    getLicenses := fun _ => Except.error { msg := "no license found" }
    buildLicenseDeclared := fun id => id
    buildLicenseConcluded := fun id => id
    getCopyright := fun text => text }

/-- A lock file with two production packages and one development package. -/
def sampleLock : ComposerLockFile :=
  { Packages :=
      [samplePackage "vendor/foo" "v2.1.0" "https://example.com/foo.git" "abc",
       samplePackage "acme/bar" "1.0.0" "" "def"]
    PackagesDev := [samplePackage "acme/testkit" "v0.3" "" "123"] }

/-- A lock file whose two records differ in name and in version, but not in
short name and normalized version. -/
def collidingLock : ComposerLockFile :=
  { Packages := [samplePackage "acme/log" "1.0.0" "" "abc"]
    PackagesDev := [samplePackage "other/log" "v1.0.0" "" "def"] }

/-- Surroundings in which the lock file is read, but its decoding stops with an
error after `sampleLock` has been filled in. -/
def brokenDecodeEnv : Env :=
  { sampleEnv sampleLock sampleRoot with
    jsonUnmarshal := fun _ => (sampleLock, some { msg := "unexpected end of JSON input" }) }

/-- Surroundings in which the lock file cannot be read. -/
def unreadableEnv : Env :=
  { sampleEnv sampleLock sampleRoot with
    readFile := fun _ => ("", some { msg := "open composer.lock: no such file or directory" }) }

/-- Surroundings in which the lock file decodes to `sampleLock`, but the project
information cannot be obtained. -/
def noProjectInfoEnv : Env :=
  { sampleEnv sampleLock sampleRoot with
    getProjectInfo := (sampleRoot, some { msg := "composer show failed" }) }

/-! ## Spec-side reference functions -/

/-- Spec wording of `getName`: the last segment after splitting the name on the
namespace separator `"/"`. -/
def getNameSpec (moduleName : String) : String :=
  ((stringsSplit moduleName '/').getLast?).getD ""

/-- Spec wording of `normalizePackageVersion`: one leading `v` is removed when
the string begins with `v` and the remainder is non-empty; otherwise the string
is returned unchanged. -/
def normalizePackageVersionSpec (version : String) : String :=
  match version.data with
  | 'v' :: rest => if rest ≠ [] then String.mk rest else version
  | _ => version

/-- A version string without its one leading `v`: the rest of the string when it
begins with `v`, the string itself otherwise. -/
def stripLeadingV (version : String) : String :=
  if version.data.head? = some 'v' then String.mk version.data.tail else version

/-- Spec wording of the digest length of a declared algorithm, in bytes: 20 for
SHA1, 64 for SHA512. -/
def digestLength : HashAlgorithm → Nat
  | HashAlgorithm.HashAlgoSHA1 => 20
  | HashAlgorithm.HashAlgoSHA512 => 64

/-- A lowercase hexadecimal digit. -/
def isHexDigit (c : Char) : Bool := "0123456789abcdef".data.contains c

/-- Spec wording of a valid checksum value: a hexadecimal encoding whose length
is that of the declared algorithm's digest, two digits a byte. -/
def isHexDigest (algorithm : HashAlgorithm) (value : String) : Bool :=
  value.data.length == 2 * digestLength algorithm && value.data.all isHexDigit

/-! ## More sample inputs -/

/-- The record of the end-to-end scenario: `vendor/foo` at `v2.1.0`, with a
distribution URL and no distribution hash. -/
def endToEndPackage : ComposerLockPackage :=
  samplePackage "vendor/foo" "v2.1.0" "https://example.com/foo.git" ""

/-- A record with two authors. -/
def authoredPackage : ComposerLockPackage :=
  { samplePackage "acme/bar" "1.0.0" "" "" with
    Authors :=
      [{ Name := "Ada", Email := "ada@example.com" },
       { Name := "Bob", Email := "bob@example.com" }] }

/-- Surroundings like `sampleEnv`, but in which the license collaborator finds
an MIT license under every path. -/
def licensedEnv (lock : ComposerLockFile) (root : Module) : Env :=
  { sampleEnv lock root with
    getLicenses := fun _ =>
      Except.ok { ID := "MIT", ExtractedText := "Copyright (c) Acme", Comments := "found" } }

/-- A record whose distribution hash is not a hexadecimal digest. -/
def oddHashPackage : ComposerLockPackage :=
  samplePackage "acme/bar" "1.0.0" "" "not-a-digest"

end Composer

/-! # Dependency-tree listing over an installed package tree -/

namespace Npm

open Composer

/-- Modelled from the spec: one installed package instance of a node-style
install tree, of which `src/` has only the test: its name, its installed
version, the path it was resolved at, and the dependency names it declares. -/
structure InstalledPackage where
  name : String
  version : String
  path : String
  dependencies : List String
  deriving DecidableEq, Repr

/-- Modelled from the spec: an installed package tree, of which `src/` has only
the test: the project's own package, the finitely many installed package
instances, and for a package and a dependency name it declares the test
`visible` that tells which installed instance is the one actually present for
it. -/
structure InstalledTree where
  root : InstalledPackage
  installed : List InstalledPackage
  visible : InstalledPackage → String → InstalledPackage → Bool

/-- Modelled from the spec: resolution of a declared dependency name of `p` to
the concrete installed instance actually present, if any. -/
def resolve (t : InstalledTree) (p : InstalledPackage) (dep : String) :
    Option InstalledPackage :=
  t.installed.find? (t.visible p dep)

/-- Modelled from the spec: the identity key of the walk, package name and
resolved path. -/
def visitKey (p : InstalledPackage) : String × String := (p.name, p.path)

/-- Modelled from the spec: the Module of an installed package with the given
`Modules` map; as in the repository's test the module of the tree view is named
by name and version. -/
def moduleOfInstalled (p : InstalledPackage) (isRoot : Bool)
    (modules : List (String × Module)) : Module :=
  { Version := p.version
    Name := p.name ++ "-" ++ p.version
    Root := isRoot
    PackageURL := ""
    CheckSum := none
    Supplier := { Name := "", Email := "" }
    LocalPath := p.path
    LicenseDeclared := ""
    LicenseConcluded := ""
    Copyright := ""
    CommentsLicense := ""
    Modules := modules }

/-- All results of a list of steps, or `none` when one of them gave none. -/
def collect {α : Type} : List (Option α) → Option (List α)
  | [] => some []
  | none :: _ => none
  | some a :: rest => (collect rest).map (fun as => a :: as)

/-- Modelled from the spec: the `Modules` map of the installed package `p`,
built recursively to full depth.  Every declared dependency name that resolves
to an installed instance gives one entry; the walk goes into that instance only
when its key is not among `visited`, the keys of the current recursion branch.
The first argument bounds the recursion depth; `none` means that the bound was
reached before the walk ended. -/
def walkDependencies (t : InstalledTree) :
    Nat → List (String × String) → InstalledPackage → Option (List (String × Module))
  | 0, _, _ => none
  | fuel + 1, visited, p =>
    collect
      ((p.dependencies.filterMap fun dep => (resolve t p dep).map fun q => (dep, q)).map
        fun entry =>
          if visited.contains (visitKey entry.2) then
            some (entry.1, moduleOfInstalled entry.2 false [])
          else
            (walkDependencies t fuel (visitKey entry.2 :: visited) entry.2).map
              fun sub => (entry.1, moduleOfInstalled entry.2 false sub))

/-- Modelled from the spec: `ListModulesWithDeps`, the root module followed by
one module for each installed package, each with its `Modules` map populated
recursively; the visited keys start afresh at every top-level package.  The
depth bound handed to the walk is one more than the number of installed
packages; `none` means that some walk did not end within it. -/
def ListModulesWithDeps (t : InstalledTree) : Option (List Module) :=
  collect
    (((t.root, true) :: t.installed.map fun p => (p, false)).map fun entry =>
      (walkDependencies t (t.installed.length + 1) [visitKey entry.1] entry.1).map
        fun sub => moduleOfInstalled entry.1 entry.2 sub)

/-- Two installed packages that depend on each other, under a project that
depends on the first; a dependency name resolves to the installed package of
that name. -/
def mutualTree : InstalledTree :=
  { root := { name := "app", version := "1.0.0", path := ".", dependencies := ["ping"] }
    installed :=
      [{ name := "ping", version := "1.0.0", path := "node_modules/ping",
         dependencies := ["pong"] },
       { name := "pong", version := "2.0.0", path := "node_modules/pong",
         dependencies := ["ping"] }]
    visible := fun _ dep q => q.name == dep }

/-- Number of installed packages whose key is not among `visited`: the keys the
walk can still enter. -/
def unvisited (t : InstalledTree) (visited : List (String × String)) : Nat :=
  t.installed.countP fun q => !visited.contains (visitKey q)

end Npm

namespace Composer

/-! ## Splitting lemmas -/

theorem splitChars_eq_cons (sep : Char) (l : List Char) :
    ∃ segs, splitChars sep l = l.takeWhile (fun c => c != sep) :: segs := by
  induction l with
  | nil => exact ⟨[], rfl⟩
  | cons c cs ih =>
    obtain ⟨segs, hs⟩ := ih
    by_cases hc : c = sep
    · exact ⟨splitChars sep cs, by simp [splitChars, hc]⟩
    · exact ⟨segs, by simp [splitChars, hc, hs]⟩

theorem splitChars_length (sep : Char) (l : List Char) :
    (splitChars sep l).length = l.count sep + 1 := by
  induction l with
  | nil => rfl
  | cons c cs ih =>
    obtain ⟨segs, hs⟩ := splitChars_eq_cons sep cs
    by_cases hc : c = sep
    · simp [splitChars, hc, ih]
    · have hne : (c == sep) = false := by simpa using hc
      rw [hs] at ih
      simp [splitChars, hc, hs, List.count_cons, hne] at ih ⊢
      exact ih

theorem splitChars_of_not_mem (sep : Char) (l : List Char) (h : sep ∉ l) :
    splitChars sep l = [l] := by
  induction l with
  | nil => rfl
  | cons c cs ih =>
    have hc : c ≠ sep := fun e => h (by simp [e])
    have hcs : sep ∉ cs := fun e => h (by simp [e])
    simp [splitChars, hc, ih hcs]

theorem splitChars_append_sep (sep : Char) (a rest : List Char) (h : sep ∉ a) :
    splitChars sep (a ++ sep :: rest) = a :: splitChars sep rest := by
  induction a with
  | nil => simp [splitChars]
  | cons c cs ih =>
    have hc : c ≠ sep := fun e => h (by simp [e])
    have hcs : sep ∉ cs := fun e => h (by simp [e])
    simp [splitChars, hc, ih hcs]

theorem takeWhile_ne_not_mem (sep : Char) (l : List Char) :
    sep ∉ l.takeWhile (fun c => c != sep) := by
  intro hmem
  have := List.mem_takeWhile_imp hmem
  simp at this

theorem takeWhile_ne_of_not_mem (sep : Char) (l : List Char) (h : sep ∉ l) :
    l.takeWhile (fun c => c != sep) = l := by
  rw [List.takeWhile_eq_self_iff]
  intro c hc
  have : c ≠ sep := fun e => h (e ▸ hc)
  simpa using this

/-! ## What the two string helpers compute -/

theorem normalizePackageVersion_nil : normalizePackageVersion (String.mk []) = String.mk [] := by
  decide

theorem normalizePackageVersion_cons_ne (c : Char) (cs : List Char) (hc : c ≠ 'v') :
    normalizePackageVersion (String.mk (c :: cs)) = String.mk (c :: cs) := by
  obtain ⟨segs, hs⟩ := splitChars_eq_cons 'v' cs
  have hne : String.mk (c :: List.takeWhile (fun c => c != 'v') cs) ≠ "" := by
    intro e
    have := congrArg String.data e
    simp at this
  simp only [normalizePackageVersion, stringsSplit, splitChars, hc, hs, if_false, idx,
    List.map_cons, List.getD_cons_zero]
  rw [if_pos hne]

theorem normalizePackageVersion_cons_v (cs : List Char) :
    normalizePackageVersion (String.mk ('v' :: cs))
      = String.mk (cs.takeWhile (fun c => c != 'v')) := by
  obtain ⟨segs, hs⟩ := splitChars_eq_cons 'v' cs
  simp [normalizePackageVersion, stringsSplit, splitChars, hs, idx]

theorem getName_of_not_mem (l : List Char) (h : '/' ∉ l) :
    getName (String.mk l) = String.mk l := by
  simp [getName, stringsSplit, splitChars_of_not_mem '/' l h, idx]

theorem getName_append_sep (a rest : List Char) (h : '/' ∉ a) :
    getName (String.mk (a ++ '/' :: rest))
      = String.mk (rest.takeWhile (fun c => c != '/')) := by
  obtain ⟨segs, hs⟩ := splitChars_eq_cons '/' rest
  simp [getName, stringsSplit, splitChars_append_sep '/' a rest h, hs, idx]

theorem normalizePackageVersion_of_head_ne (l : List Char) (h : l.head? ≠ some 'v') :
    normalizePackageVersion (String.mk l) = String.mk l := by
  cases l with
  | nil => decide
  | cons c cs =>
    have hc : c ≠ 'v' := by simpa using h
    exact normalizePackageVersion_cons_ne c cs hc

theorem getName_eq_getNameSpec (name : String) (h : name.data.count '/' ≤ 1) :
    getName name = getNameSpec name := by
  have hlen := splitChars_length '/' name.data
  match hsp : splitChars '/' name.data with
  | [] => simp [hsp] at hlen
  | [a] => simp [getName, getNameSpec, stringsSplit, hsp, idx]
  | [a, b] => simp [getName, getNameSpec, stringsSplit, hsp, idx]
  | a :: b :: c :: rest =>
    rw [hsp] at hlen
    simp only [List.length_cons] at hlen
    omega

theorem normalizePackageVersion_eq_stripLeadingV (s : String)
    (h : s.data.head? = some 'v' → 'v' ∉ s.data.tail) :
    normalizePackageVersion s = stripLeadingV s := by
  obtain ⟨l⟩ := s
  cases l with
  | nil => decide
  | cons c cs =>
    by_cases hc : c = 'v'
    · subst hc
      have hcs : 'v' ∉ cs := by simpa using h
      simp [stripLeadingV, normalizePackageVersion_cons_v, takeWhile_ne_of_not_mem 'v' cs hcs]
    · simp [stripLeadingV, normalizePackageVersion_cons_ne c cs hc, hc]

/-! ## What the module listing computes -/

theorem convertLockPackageToModule_Root (env : Env) (dep : ComposerLockPackage) :
    (convertLockPackageToModule env dep).Root = false := by
  unfold convertLockPackageToModule
  dsimp only
  split <;> rfl

theorem convertLockPackageToModule_Name (env : Env) (dep : ComposerLockPackage) :
    (convertLockPackageToModule env dep).Name = getName dep.Name := by
  unfold convertLockPackageToModule
  dsimp only
  split <;> rfl

theorem convertLockPackageToModule_Version (env : Env) (dep : ComposerLockPackage) :
    (convertLockPackageToModule env dep).Version = normalizePackageVersion dep.Version := by
  unfold convertLockPackageToModule
  dsimp only
  split <;> rfl

theorem appendConverted_eq (env : Env) (modules : List Module)
    (pkgs : List ComposerLockPackage) :
    appendConverted env modules pkgs
      = modules ++ pkgs.map (convertLockPackageToModule env) := by
  unfold appendConverted
  induction pkgs generalizing modules with
  | nil => simp
  | cons p ps ih => simp [List.foldl_cons, ih]

theorem getModules_ok (env : Env) (info : ComposerLockFile) (r : Module)
    (hlock : getComposerLockFileData env = (info, none))
    (hroot : env.getProjectInfo = (r, none)) :
    getModulesFromComposerLockFile env
      = (some (r :: (info.Packages.map (convertLockPackageToModule env)
          ++ info.PackagesDev.map (convertLockPackageToModule env))), none) := by
  unfold getModulesFromComposerLockFile
  simp only [hlock, hroot, appendConverted_eq]
  cases hP : info.Packages <;> cases hD : info.PackagesDev <;> simp

theorem getModules_lock_error (env : Env) (info : ComposerLockFile) (e : Error)
    (hlock : getComposerLockFileData env = (info, some e)) :
    getModulesFromComposerLockFile env = (none, some e) := by
  unfold getModulesFromComposerLockFile
  simp only [hlock]

theorem getModules_root_error (env : Env) (info : ComposerLockFile) (r : Module) (e : Error)
    (hlock : getComposerLockFileData env = (info, none))
    (hroot : env.getProjectInfo = (r, some e)) :
    getModulesFromComposerLockFile env = (none, some e) := by
  unfold getModulesFromComposerLockFile
  simp only [hlock, hroot]

theorem getModules_some (env : Env) (ms : List Module)
    (h : (getModulesFromComposerLockFile env).1 = some ms) :
    ∃ info r, getComposerLockFileData env = (info, none) ∧ env.getProjectInfo = (r, none) ∧
      ms = r :: (info.Packages.map (convertLockPackageToModule env)
          ++ info.PackagesDev.map (convertLockPackageToModule env)) := by
  rcases hlock : getComposerLockFileData env with ⟨info, _ | e⟩
  · rcases hroot : env.getProjectInfo with ⟨r, _ | e⟩
    · rw [getModules_ok env info r hlock hroot] at h
      exact ⟨info, r, rfl, rfl, (Option.some.inj h).symm⟩
    · rw [getModules_root_error env info r e hlock hroot] at h
      exact absurd h (by simp)
  · rw [getModules_lock_error env info e hlock] at h
    exact absurd h (by simp)

theorem sampleEnv_lock (lock : ComposerLockFile) (root : Module) :
    getComposerLockFileData (sampleEnv lock root) = (lock, none) := rfl

theorem convertLockPackageToModule_PackageURL (env : Env) (dep : ComposerLockPackage) :
    (convertLockPackageToModule env dep).PackageURL = genUrlFromComposerPackage dep := by
  unfold convertLockPackageToModule
  dsimp only
  split <;> rfl

theorem convertLockPackageToModule_CheckSum (env : Env) (dep : ComposerLockPackage) :
    (convertLockPackageToModule env dep).CheckSum
      = some { Algorithm := HashAlgorithm.HashAlgoSHA1, Value := getCheckSumValue dep } := by
  unfold convertLockPackageToModule
  dsimp only
  split <;> rfl

theorem convertLockPackageToModule_Supplier (env : Env) (dep : ComposerLockPackage) :
    (convertLockPackageToModule env dep).Supplier = getAuthor dep := by
  unfold convertLockPackageToModule
  dsimp only
  split <;> rfl

theorem convertLockPackageToModule_LocalPath (env : Env) (dep : ComposerLockPackage) :
    (convertLockPackageToModule env dep).LocalPath = getLocalPath dep := by
  unfold convertLockPackageToModule
  dsimp only
  split <;> rfl

theorem convertLockPackageToModule_Modules (env : Env) (dep : ComposerLockPackage) :
    (convertLockPackageToModule env dep).Modules = [] := by
  unfold convertLockPackageToModule
  dsimp only
  split <;> rfl

/-! ## What the checksum helpers compute -/

theorem genComposerUrl_ne_empty (name version : String) : genComposerUrl name version ≠ "" := by
  intro h
  have hlen := congrArg String.length h
  simp only [genComposerUrl, String.length_append] at hlen
  have h4 : ".git".length = 4 := by decide
  have h0 : "".length = 0 := by decide
  omega

theorem genUrlFromComposerPackage_ne_empty (dep : ComposerLockPackage) :
    genUrlFromComposerPackage dep ≠ "" := by
  unfold genUrlFromComposerPackage
  dsimp only
  split
  · assumption
  · exact genComposerUrl_ne_empty _ _

theorem readCheckSum_of_ne_empty (content : String) (h : content ≠ "") :
    readCheckSum content = hexEncodeToString (sha1Sum (stringBytes content)) := by
  simp [readCheckSum, h]

theorem getCheckSumValue_eq (dep : ComposerLockPackage) :
    getCheckSumValue dep =
      if dep.Dist.Shasum ≠ "" then dep.Dist.Shasum
      else hexEncodeToString (sha1Sum (stringBytes (genUrlFromComposerPackage dep))) := by
  unfold getCheckSumValue
  dsimp only
  rw [readCheckSum_of_ne_empty _ (genUrlFromComposerPackage_ne_empty dep)]

theorem be32_lt (x b : Nat) (h : b ∈ be32 x) : b < 256 := by
  simp only [be32, List.mem_cons, List.mem_singleton, List.not_mem_nil, or_false] at h
  rcases h with rfl | rfl | rfl | rfl <;> omega

theorem sha1Sum_length (msg : List Nat) : (sha1Sum msg).length = 20 := by
  simp [sha1Sum, be32]

theorem sha1Sum_lt (msg : List Nat) (b : Nat) (h : b ∈ sha1Sum msg) : b < 256 := by
  simp only [sha1Sum, List.mem_append] at h
  rcases h with (((h | h) | h) | h) | h <;> exact be32_lt _ b h

theorem isHexDigit_hexDigit (n : Nat) (h : n < 16) : isHexDigit (hexDigit n) = true := by
  interval_cases n <;> decide

theorem hexEncodeToString_length (bytes : List Nat) :
    (hexEncodeToString bytes).data.length = 2 * bytes.length := by
  unfold hexEncodeToString
  induction bytes with
  | nil => rfl
  | cons b bs ih =>
    simp only [List.flatMap_cons, List.length_append, List.length_cons, List.length_nil] at ih ⊢
    omega

theorem hexEncodeToString_all_hex (bytes : List Nat) (h : ∀ b ∈ bytes, b < 256) :
    (hexEncodeToString bytes).data.all isHexDigit = true := by
  unfold hexEncodeToString
  rw [List.all_eq_true]
  intro c hc
  obtain ⟨b, hb, hcb⟩ := List.mem_flatMap.mp hc
  have hb256 := h b hb
  simp only [List.mem_cons, List.mem_singleton, List.not_mem_nil, or_false] at hcb
  rcases hcb with rfl | rfl
  · exact isHexDigit_hexDigit _ (by omega)
  · exact isHexDigit_hexDigit _ (by omega)

theorem hexEncodeToString_ne_empty (bytes : List Nat) (h : bytes ≠ []) :
    hexEncodeToString bytes ≠ "" := by
  intro he
  have hlen := congrArg (fun s : String => s.data.length) he
  simp only [hexEncodeToString_length] at hlen
  cases bytes with
  | nil => exact h rfl
  | cons b bs => simp at hlen

theorem sha1Hex_isHexDigest (content : String) :
    isHexDigest HashAlgorithm.HashAlgoSHA1 (hexEncodeToString (sha1Sum (stringBytes content)))
      = true := by
  simp only [isHexDigest, digestLength, Bool.and_eq_true, beq_iff_eq]
  exact ⟨by rw [hexEncodeToString_length, sha1Sum_length],
    hexEncodeToString_all_hex _ (sha1Sum_lt _)⟩

theorem sha1Hex_ne_empty (content : String) :
    hexEncodeToString (sha1Sum (stringBytes content)) ≠ "" := by
  apply hexEncodeToString_ne_empty
  intro h
  have := sha1Sum_length (stringBytes content)
  rw [h] at this
  simp at this

theorem getCheckSumValue_ne_empty (dep : ComposerLockPackage) : getCheckSumValue dep ≠ "" := by
  rw [getCheckSumValue_eq]
  split
  · assumption
  · exact sha1Hex_ne_empty _

/-! ## Claims about the module listing -/

/-- C1: when the lock file decodes to production packages `P` and development
packages `D` and `getProjectInfo` returns the root module `r`, the listing is
`r`, then the conversion of each element of `P` in order, then the conversion
of each element of `D` in order, with a nil error; its length is
`1 + |P| + |D|`. -/
theorem getModules_exact_order (env : Env) (info : ComposerLockFile) (r : Module)
    (hlock : getComposerLockFileData env = (info, none))
    (hroot : env.getProjectInfo = (r, none)) :
    getModulesFromComposerLockFile env
        = (some ([r] ++ info.Packages.map (convertLockPackageToModule env)
            ++ info.PackagesDev.map (convertLockPackageToModule env)), none)
      ∧ (getModulesFromComposerLockFile env).1.map List.length
        = some (1 + info.Packages.length + info.PackagesDev.length) := by
  have h := getModules_ok env info r hlock hroot
  refine ⟨by simpa using h, ?_⟩
  rw [h]
  simp
  omega

/-- C1 on a lock file with two production packages and one development
package: four modules, root first, then the packages in the order of the
lock file. -/
theorem getModules_exact_order_witness :
    getModulesFromComposerLockFile (sampleEnv sampleLock sampleRoot)
        = (some ([sampleRoot]
            ++ sampleLock.Packages.map (convertLockPackageToModule (sampleEnv sampleLock sampleRoot))
            ++ sampleLock.PackagesDev.map
                (convertLockPackageToModule (sampleEnv sampleLock sampleRoot))), none)
      ∧ (getModulesFromComposerLockFile (sampleEnv sampleLock sampleRoot)).1.map List.length
        = some (1 + 2 + 1) :=
  getModules_exact_order (sampleEnv sampleLock sampleRoot) sampleLock sampleRoot rfl rfl

/-- C2: `convertLockPackageToModule` never sets `Root`; in a successful listing
every element after the first has `Root = false`, and when `getProjectInfo`
returns a module with `Root = true` the listing holds exactly one Root module,
its first element. -/
theorem getModules_single_root (env : Env) (ms : List Module)
    (h : (getModulesFromComposerLockFile env).1 = some ms) :
    (∀ dep, (convertLockPackageToModule env dep).Root = false) ∧
      (∀ m ∈ ms.tail, m.Root = false) ∧
      (env.getProjectInfo.1.Root = true →
        ms.countP (fun m => m.Root) = 1 ∧ ms.head? = some env.getProjectInfo.1) := by
  obtain ⟨info, r, -, hroot, hms⟩ := getModules_some env ms h
  have htail : ∀ m ∈ ms.tail, m.Root = false := by
    intro m hm
    rw [hms, List.tail_cons, List.mem_append] at hm
    rcases hm with hm | hm <;>
      · obtain ⟨dep, -, rfl⟩ := List.mem_map.mp hm
        exact convertLockPackageToModule_Root env dep
  refine ⟨convertLockPackageToModule_Root env, htail, ?_⟩
  intro hr
  rw [hroot] at hr ⊢
  subst hms
  refine ⟨?_, rfl⟩
  rw [List.countP_cons_of_pos _ _ hr, Nat.add_left_eq_self, List.countP_eq_zero]
  intro m hm
  simp [htail m hm]

/-- C2 on the sample lock file, whose project module has `Root = true`. -/
theorem getModules_single_root_witness :
    ∃ ms, (getModulesFromComposerLockFile (sampleEnv sampleLock sampleRoot)).1 = some ms ∧
      ms.length = 4 ∧ (∀ m ∈ ms.tail, m.Root = false) ∧
      ms.countP (fun m => m.Root) = 1 ∧ ms.head? = some sampleRoot :=
  ⟨_, rfl, rfl,
    (getModules_single_root (sampleEnv sampleLock sampleRoot) _ rfl).2.1,
    (getModules_single_root (sampleEnv sampleLock sampleRoot) _ rfl).2.2 rfl⟩

/-- C3: an error from reading the lock file, from decoding it, or (once the
lock file is decoded) from `getProjectInfo` is returned as it is together with
the nil module slice, whatever the decoder had filled in; a non-nil slice is
returned only when both steps end without error. -/
theorem getModules_fail_fast (env : Env) :
    (∀ raw e, env.readFile env.COMPOSER_LOCK_FILE_NAME = (raw, some e) →
        getModulesFromComposerLockFile env = (none, some e)) ∧
      (∀ raw info e, env.readFile env.COMPOSER_LOCK_FILE_NAME = (raw, none) →
        env.jsonUnmarshal raw = (info, some e) →
        getModulesFromComposerLockFile env = (none, some e)) ∧
      (∀ info r e, getComposerLockFileData env = (info, none) →
        env.getProjectInfo = (r, some e) →
        getModulesFromComposerLockFile env = (none, some e)) ∧
      ((getModulesFromComposerLockFile env).1 ≠ none →
        (getComposerLockFileData env).2 = none ∧ env.getProjectInfo.2 = none) := by
  refine ⟨?_, ?_, ?_, ?_⟩
  · intro raw e hread
    apply getModules_lock_error env ComposerLockFile.zero
    simp only [getComposerLockFileData, hread]
  · intro raw info e hread hdec
    apply getModules_lock_error env ComposerLockFile.zero
    simp only [getComposerLockFileData, hread, hdec]
  · intro info r e hlock hroot
    exact getModules_root_error env info r e hlock hroot
  · intro hne
    obtain ⟨ms, hms⟩ := Option.ne_none_iff_exists'.mp hne
    obtain ⟨info, r, hlock, hroot, -⟩ := getModules_some env ms hms
    simp [hlock, hroot]

/-- C3 on three failing runs: an unreadable lock file, a decoder that stops
with an error after filling in three packages, and a failing `getProjectInfo`
after a good decode; each gives the nil slice and the error of the failing
step. -/
theorem getModules_fail_fast_witness :
    getModulesFromComposerLockFile unreadableEnv
        = (none, some { msg := "open composer.lock: no such file or directory" }) ∧
      getModulesFromComposerLockFile brokenDecodeEnv
        = (none, some { msg := "unexpected end of JSON input" }) ∧
      getModulesFromComposerLockFile noProjectInfoEnv
        = (none, some { msg := "composer show failed" }) :=
  ⟨(getModules_fail_fast unreadableEnv).1 "" _ rfl,
   (getModules_fail_fast brokenDecodeEnv).2.1 "composer-lock-json" sampleLock _ rfl rfl,
   (getModules_fail_fast noProjectInfoEnv).2.2.1 sampleLock sampleRoot _ rfl rfl⟩

/-- C4 (as stated, refuted): the two records of `collidingLock` have distinct
(Name, Version) pairs, `("acme/log", "1.0.0")` and `("other/log", "v1.0.0")`,
and both are converted to a module with the pair `("log", "1.0.0")`. -/
theorem convert_pairs_collide :
    ((collidingLock.Packages ++ collidingLock.PackagesDev).map
        (fun p => (p.Name, p.Version))).Nodup ∧
      ¬ (((collidingLock.Packages ++ collidingLock.PackagesDev).map
          (convertLockPackageToModule (sampleEnv collidingLock sampleRoot))).map
        (fun m => (m.Name, m.Version))).Nodup := by
  constructor
  · decide
  · simp only [List.map_map]
    have hfun : ((fun m : Module => (m.Name, m.Version))
        ∘ convertLockPackageToModule (sampleEnv collidingLock sampleRoot))
        = fun p => (getName p.Name, normalizePackageVersion p.Version) := by
      funext p
      simp [convertLockPackageToModule_Name, convertLockPackageToModule_Version]
    rw [hfun]
    decide

/-- C4 (amended): when the package records of the lock file (production and
development together) have names with at most one `"/"`, versions in which no
further `v` follows a leading `v`, and pairwise distinct pairs of the last
`"/"`-segment of the name and the version without its one leading `v`, the
modules listed after the root are the conversions of these records and have
pairwise distinct (Name, Version) pairs. -/
theorem getModules_pairs_nodup (env : Env) (info : ComposerLockFile) (ms : List Module)
    (hlock : getComposerLockFileData env = (info, none))
    (hres : (getModulesFromComposerLockFile env).1 = some ms)
    (hname : ∀ p ∈ info.Packages ++ info.PackagesDev, p.Name.data.count '/' ≤ 1)
    (hver : ∀ p ∈ info.Packages ++ info.PackagesDev,
        p.Version.data.head? = some 'v' → 'v' ∉ p.Version.data.tail)
    (hd : ((info.Packages ++ info.PackagesDev).map
        (fun p => (getNameSpec p.Name, stripLeadingV p.Version))).Nodup) :
    ms.tail = (info.Packages ++ info.PackagesDev).map (convertLockPackageToModule env) ∧
      (ms.tail.map (fun m => (m.Name, m.Version))).Nodup := by
  obtain ⟨info2, r, hlock2, -, hms⟩ := getModules_some env ms hres
  rw [hlock] at hlock2
  obtain rfl : info = info2 := (Prod.mk.inj hlock2).1
  have htail : ms.tail = (info.Packages ++ info.PackagesDev).map
      (convertLockPackageToModule env) := by
    rw [hms, List.tail_cons, List.map_append]
  refine ⟨htail, ?_⟩
  rw [htail, List.map_map]
  have hfun : (info.Packages ++ info.PackagesDev).map
        ((fun m : Module => (m.Name, m.Version)) ∘ convertLockPackageToModule env)
      = (info.Packages ++ info.PackagesDev).map
        (fun p => (getNameSpec p.Name, stripLeadingV p.Version)) := by
    apply List.map_congr_left
    intro p hp
    simp only [Function.comp_apply, convertLockPackageToModule_Name,
      convertLockPackageToModule_Version]
    rw [getName_eq_getNameSpec p.Name (hname p hp),
      normalizePackageVersion_eq_stripLeadingV p.Version (hver p hp)]
  rw [hfun]
  exact hd

/-- C4 (amended) on the sample lock file, whose three records `vendor/foo` at
`v2.1.0`, `acme/bar` at `1.0.0` and `acme/testkit` at `v0.3` give the distinct
pairs `("foo", "2.1.0")`, `("bar", "1.0.0")` and `("testkit", "0.3")`. -/
theorem getModules_pairs_nodup_witness :
    ∃ ms, (getModulesFromComposerLockFile (sampleEnv sampleLock sampleRoot)).1 = some ms ∧
      (sampleLock.Packages ++ sampleLock.PackagesDev).map
          (fun p => (getNameSpec p.Name, stripLeadingV p.Version))
        = [("foo", "2.1.0"), ("bar", "1.0.0"), ("testkit", "0.3")] ∧
      ms.tail.map (fun m => (m.Name, m.Version))
        = [("foo", "2.1.0"), ("bar", "1.0.0"), ("testkit", "0.3")] ∧
      (ms.tail.map (fun m => (m.Name, m.Version))).Nodup :=
  ⟨_, rfl, by decide, by decide,
    (getModules_pairs_nodup (sampleEnv sampleLock sampleRoot) sampleLock _ rfl rfl
      (by decide) (by decide) (by decide)).2⟩

/-! ## Claims about the string helpers -/

/-- C5 (as stated, refuted): on the name `a/b/c` the source returns the second
segment `b`, while the last segment of the split is `c`. -/
theorem getName_not_last_segment :
    getName "a/b/c" = "b" ∧ getNameSpec "a/b/c" = "c" ∧ getName "a/b/c" ≠ getNameSpec "a/b/c" := by
  decide

/-- C5 (amended): for every package name with at most one `"/"` the source
`getName` returns the last segment of the split on `"/"`; for a name with two or
more separators it returns the segment at index 1 of the split. -/
theorem getName_last_or_second (name : String) :
    getName name =
      if name.data.count '/' ≤ 1 then getNameSpec name
      else idx (stringsSplit name '/') 1 := by
  have hlen := splitChars_length '/' name.data
  by_cases hc : name.data.count '/' ≤ 1
  · rw [if_pos hc]
    match hsp : splitChars '/' name.data with
    | [] => simp [hsp] at hlen
    | [a] => simp [getName, getNameSpec, stringsSplit, hsp, idx]
    | [a, b] => simp [getName, getNameSpec, stringsSplit, hsp, idx]
    | a :: b :: c :: rest =>
      rw [hsp] at hlen
      simp only [List.length_cons] at hlen
      omega
  · rw [if_neg hc]
    have hgt : (stringsSplit name '/').length > 1 := by
      rw [stringsSplit, List.length_map, hlen]
      omega
    simp [getName, hgt]

/-- C6: for strings `vendor` and `name` without `"/"`, `getName` of
`vendor + "/" + name` is `name`, and `getName` of `name` alone is `name`. -/
theorem getName_vendor_name (vendor name : String)
    (hv : '/' ∉ vendor.data) (hn : '/' ∉ name.data) :
    getName (vendor ++ "/" ++ name) = name ∧ getName name = name := by
  constructor
  · have hdata : vendor ++ "/" ++ name = String.mk (vendor.data ++ '/' :: name.data) := by
      apply String.ext
      simp [String.data_append]
    rw [hdata, getName_append_sep _ _ hv, takeWhile_ne_of_not_mem '/' _ hn]
  · exact getName_of_not_mem name.data hn

/-- C6 at the spec's own inputs: `getName("vendor/name") = "name"` and
`getName("name") = "name"`. -/
theorem getName_vendor_name_witness :
    '/' ∉ "vendor".data ∧ '/' ∉ "name".data ∧
      getName ("vendor" ++ "/" ++ "name") = "name" ∧ getName "name" = "name" :=
  ⟨by decide, by decide, getName_vendor_name "vendor" "name" (by decide) (by decide)⟩

/-- C7 (as stated, refuted): the version `v` alone does not pass through
unmodified, it becomes the empty string; and on `v1.x-dev` the source does not
return the string with one leading `v` removed. -/
theorem normalizePackageVersion_not_spec :
    normalizePackageVersion "v" = "" ∧ normalizePackageVersionSpec "v" = "v" ∧
      normalizePackageVersion "v1.x-dev" = "1.x-de" ∧
      normalizePackageVersionSpec "v1.x-dev" = "1.x-dev" := by
  decide

/-- C7 (amended): for every version string in which no further `v` follows a
leading `v`, the source returns the string with that leading `v` removed when it
begins with `v` (also when nothing remains, so `v` gives the empty string) and
the string unchanged when it does not begin with `v`. -/
theorem normalizePackageVersion_strip_leading (s : String)
    (h : s.data.head? = some 'v' → 'v' ∉ s.data.tail) :
    normalizePackageVersion s =
      if s.data.head? = some 'v' then String.mk s.data.tail else s := by
  obtain ⟨l⟩ := s
  cases l with
  | nil => decide
  | cons c cs =>
    by_cases hc : c = 'v'
    · subst hc
      have hcs : 'v' ∉ cs := by simpa using h
      simp [normalizePackageVersion_cons_v, takeWhile_ne_of_not_mem 'v' cs hcs]
    · simp [normalizePackageVersion_cons_ne c cs hc, hc]

/-- C7 (amended) at `v2.1.0`, at `v` alone and at a string without leading `v`. -/
theorem normalizePackageVersion_strip_leading_witness :
    normalizePackageVersion "v2.1.0" = "2.1.0" ∧ normalizePackageVersion "v" = "" ∧
      normalizePackageVersion "dev-master" = "dev-master" :=
  ⟨normalizePackageVersion_strip_leading "v2.1.0" (by decide),
   normalizePackageVersion_strip_leading "v" (by decide),
   normalizePackageVersion_strip_leading "dev-master" (by decide)⟩

/-- C8: a version string that does not begin with `v` (the empty string and
strings with a `v` only further on included) is returned unchanged. -/
theorem normalizePackageVersion_no_leading_v (s : String)
    (h : s.data.head? ≠ some 'v') : normalizePackageVersion s = s :=
  normalizePackageVersion_of_head_ne s.data h

/-- C8 at `dev-master` and at the empty string. -/
theorem normalizePackageVersion_no_leading_v_witness :
    "dev-master".data.head? ≠ some 'v' ∧ normalizePackageVersion "dev-master" = "dev-master" ∧
      normalizePackageVersion "" = "" :=
  ⟨by decide, normalizePackageVersion_no_leading_v "dev-master" (by decide),
   normalizePackageVersion_no_leading_v "" (by decide)⟩

/-- C9: `normalizePackageVersion` sends `v1.2.3` and `1.2.3` to `1.2.3`, and
the degenerate input `v` to the empty string. -/
theorem normalizePackageVersion_examples :
    normalizePackageVersion "v1.2.3" = "1.2.3" ∧ normalizePackageVersion "1.2.3" = "1.2.3" ∧
      normalizePackageVersion "v" = "" := by
  decide

/-- C10: version normalization is idempotent. -/
theorem normalizePackageVersion_idempotent (s : String) :
    normalizePackageVersion (normalizePackageVersion s) = normalizePackageVersion s := by
  obtain ⟨l⟩ := s
  cases l with
  | nil => decide
  | cons c cs =>
    by_cases hc : c = 'v'
    · subst hc
      rw [normalizePackageVersion_cons_v]
      apply normalizePackageVersion_of_head_ne
      intro hhead
      have hmem : 'v' ∈ cs.takeWhile (fun c => c != 'v') := by
        cases htw : cs.takeWhile (fun c => c != 'v') with
        | nil => simp [htw] at hhead
        | cons d ds =>
          simp [htw] at hhead
          simp [hhead]
      exact takeWhile_ne_not_mem 'v' cs hmem
    · rw [normalizePackageVersion_cons_ne c cs hc, normalizePackageVersion_cons_ne c cs hc]

/-! ## Claims about the record conversion -/

theorem sha1Hex_example_url :
    hexEncodeToString (sha1Sum (stringBytes "https://example.com/foo.git"))
      = "9004367ae8380541193f5e8df361c023c14a2965" := by
  set_option maxRecDepth 1000000 in decide

/-- C11: `genUrlFromComposerPackage`, and with it the module's `PackageURL`, is
the record's `Dist.URL` when that is non-empty and otherwise
`"https://github.com/" + Name + ".git"`; the result does not depend on the
record's `Version`. -/
theorem genUrlFromComposerPackage_spec (env : Env) (dep : ComposerLockPackage) :
    genUrlFromComposerPackage dep
        = (if dep.Dist.URL ≠ "" then dep.Dist.URL
           else "https://github.com/" ++ dep.Name ++ ".git")
      ∧ (convertLockPackageToModule env dep).PackageURL = genUrlFromComposerPackage dep
      ∧ ∀ version : String,
          genUrlFromComposerPackage { dep with Version := version }
            = genUrlFromComposerPackage dep :=
  ⟨rfl, convertLockPackageToModule_PackageURL env dep, fun _ => rfl⟩

/-- C12: the module's checksum has algorithm SHA1, and its value is the
record's `Dist.Shasum` as it is when that is non-empty, and otherwise the
lowercase hexadecimal SHA-1 digest of the resolved `PackageURL` string; it is
the same under any surroundings, so repeated calls on a record agree. -/
theorem convert_checksum_spec (env : Env) (dep : ComposerLockPackage) :
    (convertLockPackageToModule env dep).CheckSum
        = some
          { Algorithm := HashAlgorithm.HashAlgoSHA1
            Value :=
              if dep.Dist.Shasum ≠ "" then dep.Dist.Shasum
              else hexEncodeToString (sha1Sum (stringBytes
                (convertLockPackageToModule env dep).PackageURL)) }
      ∧ (convertLockPackageToModule env dep).PackageURL = genUrlFromComposerPackage dep
      ∧ ∀ env2 : Env, (convertLockPackageToModule env2 dep).CheckSum
          = (convertLockPackageToModule env dep).CheckSum := by
  refine ⟨?_, convertLockPackageToModule_PackageURL env dep, ?_⟩
  · rw [convertLockPackageToModule_CheckSum, convertLockPackageToModule_PackageURL,
      getCheckSumValue_eq]
  · intro env2
    rw [convertLockPackageToModule_CheckSum, convertLockPackageToModule_CheckSum]

/-- C13 (as stated, refuted): a record with the distribution hash
`not-a-digest` is converted to a module whose checksum value is that string:
not empty, and not a hexadecimal encoding of 40 characters. -/
theorem convert_checksum_not_hex :
    (convertLockPackageToModule (sampleEnv sampleLock sampleRoot) oddHashPackage).CheckSum
        = some { Algorithm := HashAlgorithm.HashAlgoSHA1, Value := "not-a-digest" }
      ∧ "not-a-digest" ≠ ""
      ∧ isHexDigest HashAlgorithm.HashAlgoSHA1 "not-a-digest" = false :=
  ⟨rfl, by decide, by decide⟩

/-- C13 (amended): for a record whose `Dist.Shasum` is empty, the module's
checksum is SHA1 with a value of 40 lowercase hexadecimal digits, a valid
encoding of the SHA1 digest length; for a record whose `Dist.Shasum` is not
empty, the module's checksum is SHA1 with that string as its value, whatever
its form. -/
theorem convert_checksum_hex (env : Env) (dep : ComposerLockPackage) :
    (dep.Dist.Shasum = "" →
        (convertLockPackageToModule env dep).CheckSum.map
            (fun c => (c.Algorithm, isHexDigest c.Algorithm c.Value, c.Value.data.length))
          = some (HashAlgorithm.HashAlgoSHA1, true, 40))
      ∧ (dep.Dist.Shasum ≠ "" →
        (convertLockPackageToModule env dep).CheckSum
          = some { Algorithm := HashAlgorithm.HashAlgoSHA1, Value := dep.Dist.Shasum }) := by
  constructor
  · intro h
    rw [convertLockPackageToModule_CheckSum, getCheckSumValue_eq]
    simp only [h, ne_eq, not_true_eq_false, if_false, Option.map_some']
    rw [sha1Hex_isHexDigest, hexEncodeToString_length, sha1Sum_length]
  · intro h
    rw [convertLockPackageToModule_CheckSum, getCheckSumValue_eq, if_pos h]

/-- C13 (amended) on the record of the end-to-end scenario, which has no
distribution hash, and on a record whose distribution hash is `not-a-digest`. -/
theorem convert_checksum_hex_witness :
    endToEndPackage.Dist.Shasum = "" ∧
      (convertLockPackageToModule (sampleEnv sampleLock sampleRoot) endToEndPackage).CheckSum.map
          (fun c => (c.Algorithm, isHexDigest c.Algorithm c.Value, c.Value.data.length))
        = some (HashAlgorithm.HashAlgoSHA1, true, 40) ∧
      oddHashPackage.Dist.Shasum ≠ "" ∧
      (convertLockPackageToModule (licensedEnv sampleLock sampleRoot) oddHashPackage).CheckSum
        = some { Algorithm := HashAlgorithm.HashAlgoSHA1, Value := "not-a-digest" } :=
  ⟨rfl, (convert_checksum_hex (sampleEnv sampleLock sampleRoot) endToEndPackage).1 rfl,
   by decide,
   (convert_checksum_hex (licensedEnv sampleLock sampleRoot) oddHashPackage).2 (by decide)⟩

/-- C14: a record with name `vendor/foo`, version `v2.1.0`, distribution URL
`https://example.com/foo.git` and no distribution hash is converted, whatever
the license collaborator returns, to a module with name `foo`, version `2.1.0`,
that URL as `PackageURL`, and a SHA1 checksum whose value is the hexadecimal
SHA-1 digest of the URL, `9004367ae8380541193f5e8df361c023c14a2965`. -/
theorem convert_end_to_end (env : Env) (dep : ComposerLockPackage)
    (hname : dep.Name = "vendor/foo") (hversion : dep.Version = "v2.1.0")
    (hurl : dep.Dist.URL = "https://example.com/foo.git") (hsum : dep.Dist.Shasum = "") :
    (convertLockPackageToModule env dep).Name = "foo"
      ∧ (convertLockPackageToModule env dep).Version = "2.1.0"
      ∧ (convertLockPackageToModule env dep).PackageURL = "https://example.com/foo.git"
      ∧ (convertLockPackageToModule env dep).CheckSum
          = some
            { Algorithm := HashAlgorithm.HashAlgoSHA1
              Value := hexEncodeToString (sha1Sum (stringBytes "https://example.com/foo.git")) }
      ∧ hexEncodeToString (sha1Sum (stringBytes "https://example.com/foo.git"))
          = "9004367ae8380541193f5e8df361c023c14a2965" := by
  have hgen : genUrlFromComposerPackage dep = "https://example.com/foo.git" := by
    simp [genUrlFromComposerPackage, hurl]
  refine ⟨?_, ?_, ?_, ?_, sha1Hex_example_url⟩
  · rw [convertLockPackageToModule_Name, hname]
    decide
  · rw [convertLockPackageToModule_Version, hversion]
    decide
  · rw [convertLockPackageToModule_PackageURL, hgen]
  · rw [convertLockPackageToModule_CheckSum, getCheckSumValue_eq, hgen]
    simp [hsum]

/-- C14 on the record of the end-to-end scenario, once without and once with a
license found. -/
theorem convert_end_to_end_witness :
    (convertLockPackageToModule (sampleEnv sampleLock sampleRoot) endToEndPackage).Name = "foo"
      ∧ (convertLockPackageToModule (licensedEnv sampleLock sampleRoot) endToEndPackage).Version
          = "2.1.0"
      ∧ (convertLockPackageToModule (licensedEnv sampleLock sampleRoot) endToEndPackage).CheckSum
          = some
            { Algorithm := HashAlgorithm.HashAlgoSHA1
              Value := hexEncodeToString (sha1Sum (stringBytes "https://example.com/foo.git")) } :=
  ⟨(convert_end_to_end (sampleEnv sampleLock sampleRoot) endToEndPackage rfl rfl rfl rfl).1,
   (convert_end_to_end (licensedEnv sampleLock sampleRoot) endToEndPackage rfl rfl rfl rfl).2.1,
   (convert_end_to_end (licensedEnv sampleLock sampleRoot) endToEndPackage
      rfl rfl rfl rfl).2.2.2.1⟩

/-- C15 (as stated, refuted): the two records of `collidingLock` are converted
to modules with the same `Name`, `log`, and different `LocalPath`s,
`./vendor/acme/log` and `./vendor/other/log`. -/
theorem convert_localPath_not_from_name :
    (collidingLock.Packages.map fun p =>
        ((convertLockPackageToModule (sampleEnv collidingLock sampleRoot) p).Name,
         (convertLockPackageToModule (sampleEnv collidingLock sampleRoot) p).LocalPath))
        = [("log", "./vendor/acme/log")]
      ∧ (collidingLock.PackagesDev.map fun p =>
        ((convertLockPackageToModule (sampleEnv collidingLock sampleRoot) p).Name,
         (convertLockPackageToModule (sampleEnv collidingLock sampleRoot) p).LocalPath))
        = [("log", "./vendor/other/log")]
      ∧ "./vendor/acme/log" ≠ "./vendor/other/log" := by
  refine ⟨?_, ?_, by decide⟩ <;>
    simp only [collidingLock, List.map_cons, List.map_nil, convertLockPackageToModule_Name,
      convertLockPackageToModule_LocalPath] <;>
    decide

/-- C15 (amended): the module's `LocalPath` is derivable from the record's full
`Name` alone: it is the install root `./vendor/` followed by that name, so two
records with the same `Name` give the same `LocalPath`, whatever else they hold
and whatever the license collaborator returns. -/
theorem convert_localPath_from_record_name (env1 env2 : Env)
    (dep1 dep2 : ComposerLockPackage) (h : dep1.Name = dep2.Name) :
    (convertLockPackageToModule env1 dep1).LocalPath = "./vendor/" ++ dep1.Name
      ∧ (convertLockPackageToModule env1 dep1).LocalPath
          = (convertLockPackageToModule env2 dep2).LocalPath := by
  rw [convertLockPackageToModule_LocalPath, convertLockPackageToModule_LocalPath]
  unfold getLocalPath
  exact ⟨rfl, by rw [h]⟩

/-- C15 (amended) on two records named `acme/bar` that differ in version, hash
and authors, one converted without and one with a license found. -/
theorem convert_localPath_from_record_name_witness :
    (convertLockPackageToModule (sampleEnv sampleLock sampleRoot) oddHashPackage).LocalPath
        = "./vendor/" ++ "acme/bar"
      ∧ (convertLockPackageToModule (sampleEnv sampleLock sampleRoot) oddHashPackage).LocalPath
        = (convertLockPackageToModule (licensedEnv sampleLock sampleRoot)
            authoredPackage).LocalPath :=
  convert_localPath_from_record_name (sampleEnv sampleLock sampleRoot)
    (licensedEnv sampleLock sampleRoot) oddHashPackage authoredPackage rfl

/-- C16: `getAuthor` is total; on an empty author list it returns the empty
contact, and on a non-empty list the name and e-mail of the first entry,
whatever entries follow. -/
theorem getAuthor_first_entry (dep : ComposerLockPackage) :
    (dep.Authors = [] → getAuthor dep = { Name := "", Email := "" })
      ∧ (∀ author rest, dep.Authors = author :: rest →
          getAuthor dep = { Name := author.Name, Email := author.Email }
            ∧ ∀ others, getAuthor { dep with Authors := author :: others } = getAuthor dep) := by
  constructor
  · intro h
    simp [getAuthor, h]
  · intro author rest h
    simp [getAuthor, h]

/-- C16 on a record with two authors and on a record with none. -/
theorem getAuthor_first_entry_witness :
    getAuthor authoredPackage = { Name := "Ada", Email := "ada@example.com" }
      ∧ getAuthor oddHashPackage = { Name := "", Email := "" } :=
  ⟨((getAuthor_first_entry authoredPackage).2 _ _ rfl).1,
   (getAuthor_first_entry oddHashPackage).1 rfl⟩

/-- C17: when the license collaborator returns an error, the conversion still
returns a module; its four license fields are empty, and every other field is
the one produced when the collaborator succeeds. -/
theorem convert_license_miss (envMiss envHit : Env) (dep : ComposerLockPackage)
    (e : Error) (licensePkg : License)
    (hmiss : envMiss.getLicenses (getLocalPath dep) = Except.error e)
    (hhit : envHit.getLicenses (getLocalPath dep) = Except.ok licensePkg) :
    ((convertLockPackageToModule envMiss dep).LicenseDeclared = ""
        ∧ (convertLockPackageToModule envMiss dep).LicenseConcluded = ""
        ∧ (convertLockPackageToModule envMiss dep).Copyright = ""
        ∧ (convertLockPackageToModule envMiss dep).CommentsLicense = "")
      ∧ ((convertLockPackageToModule envMiss dep).Name
            = (convertLockPackageToModule envHit dep).Name
        ∧ (convertLockPackageToModule envMiss dep).Version
            = (convertLockPackageToModule envHit dep).Version
        ∧ (convertLockPackageToModule envMiss dep).Root
            = (convertLockPackageToModule envHit dep).Root
        ∧ (convertLockPackageToModule envMiss dep).PackageURL
            = (convertLockPackageToModule envHit dep).PackageURL
        ∧ (convertLockPackageToModule envMiss dep).CheckSum
            = (convertLockPackageToModule envHit dep).CheckSum
        ∧ (convertLockPackageToModule envMiss dep).Supplier
            = (convertLockPackageToModule envHit dep).Supplier
        ∧ (convertLockPackageToModule envMiss dep).LocalPath
            = (convertLockPackageToModule envHit dep).LocalPath
        ∧ (convertLockPackageToModule envMiss dep).Modules
            = (convertLockPackageToModule envHit dep).Modules)
      ∧ ((convertLockPackageToModule envHit dep).LicenseDeclared
            = envHit.buildLicenseDeclared licensePkg.ID
        ∧ (convertLockPackageToModule envHit dep).LicenseConcluded
            = envHit.buildLicenseConcluded licensePkg.ID
        ∧ (convertLockPackageToModule envHit dep).Copyright
            = envHit.getCopyright licensePkg.ExtractedText
        ∧ (convertLockPackageToModule envHit dep).CommentsLicense = licensePkg.Comments) := by
  refine ⟨?_, ?_, ?_⟩
  · unfold convertLockPackageToModule
    simp only [hmiss, and_self]
  · simp only [convertLockPackageToModule_Name, convertLockPackageToModule_Version,
      convertLockPackageToModule_Root, convertLockPackageToModule_PackageURL,
      convertLockPackageToModule_CheckSum, convertLockPackageToModule_Supplier,
      convertLockPackageToModule_LocalPath, convertLockPackageToModule_Modules, and_self]
  · unfold convertLockPackageToModule
    simp only [hhit, and_self]

/-- C17 on the end-to-end record: no license found gives empty license fields,
a license found gives `MIT`, and the name is `foo` either way. -/
theorem convert_license_miss_witness :
    (convertLockPackageToModule (sampleEnv sampleLock sampleRoot) endToEndPackage).LicenseDeclared
        = ""
      ∧ (convertLockPackageToModule (sampleEnv sampleLock sampleRoot) endToEndPackage).Name
        = (convertLockPackageToModule (licensedEnv sampleLock sampleRoot) endToEndPackage).Name
      ∧ (convertLockPackageToModule (licensedEnv sampleLock sampleRoot)
          endToEndPackage).LicenseDeclared = "MIT" :=
  ⟨(convert_license_miss (sampleEnv sampleLock sampleRoot) (licensedEnv sampleLock sampleRoot)
      endToEndPackage _ _ rfl rfl).1.1,
   (convert_license_miss (sampleEnv sampleLock sampleRoot) (licensedEnv sampleLock sampleRoot)
      endToEndPackage _ _ rfl rfl).2.1.1,
   (convert_license_miss (sampleEnv sampleLock sampleRoot) (licensedEnv sampleLock sampleRoot)
      endToEndPackage _ _ rfl rfl).2.2.1⟩

/-- C19: for a version string that begins with `v`, the result is the part of
the string between that `v` and the next `v`, or the end of the string when
there is no further `v`: the string is `v`, then the result, then a rest that
is empty or begins with `v`, and the result holds no `v`. -/
theorem normalizePackageVersion_cut_at_next_v (s : String)
    (h : s.data.head? = some 'v') :
    'v' ∉ (normalizePackageVersion s).data
      ∧ ∃ rest : List Char,
          s.data = 'v' :: ((normalizePackageVersion s).data ++ rest)
            ∧ (rest = [] ∨ rest.head? = some 'v') := by
  obtain ⟨l⟩ := s
  cases l with
  | nil => simp at h
  | cons c cs =>
    obtain rfl : c = 'v' := by simpa using h
    rw [normalizePackageVersion_cons_v]
    refine ⟨takeWhile_ne_not_mem 'v' cs, cs.dropWhile (fun c => c != 'v'), ?_, ?_⟩
    · simp [List.takeWhile_append_dropWhile]
    · cases hd : cs.dropWhile (fun c => c != 'v') with
      | nil => exact Or.inl rfl
      | cons d ds =>
        right
        have hhead := List.head_dropWhile_not (fun c => c != 'v') cs (by simp [hd])
        simp only [hd, List.head_cons] at hhead
        have hdv : d = 'v' := by simpa using hhead
        simp [hdv]

/-- C19 on `v1.0.0-dev`, which gives `1.0.0-de`, and on `vv1`, which gives the
empty string. -/
theorem normalizePackageVersion_cut_at_next_v_witness :
    normalizePackageVersion "v1.0.0-dev" = "1.0.0-de" ∧ normalizePackageVersion "vv1" = ""
      ∧ 'v' ∉ (normalizePackageVersion "v1.0.0-dev").data
      ∧ ∃ rest : List Char,
          "vv1".data = 'v' :: ((normalizePackageVersion "vv1").data ++ rest)
            ∧ (rest = [] ∨ rest.head? = some 'v') :=
  ⟨by decide, by decide,
   (normalizePackageVersion_cut_at_next_v "v1.0.0-dev" (by decide)).1,
   (normalizePackageVersion_cut_at_next_v "vv1" (by decide)).2⟩

/-- C20: the URL `genUrlFromComposerPackage` returns is never empty, so
`readCheckSum` never takes its empty-content branch under `getCheckSumValue`;
`getCheckSumValue` returns a non-empty string, and so every converted module
carries a non-empty checksum value. -/
theorem getCheckSumValue_nonempty (env : Env) (dep : ComposerLockPackage) :
    genUrlFromComposerPackage dep ≠ ""
      ∧ readCheckSum (genUrlFromComposerPackage dep)
          = hexEncodeToString (sha1Sum (stringBytes (genUrlFromComposerPackage dep)))
      ∧ getCheckSumValue dep ≠ ""
      ∧ ∃ c, (convertLockPackageToModule env dep).CheckSum = some c ∧ c.Value ≠ "" :=
  ⟨genUrlFromComposerPackage_ne_empty dep,
   readCheckSum_of_ne_empty _ (genUrlFromComposerPackage_ne_empty dep),
   getCheckSumValue_ne_empty dep,
   _, convertLockPackageToModule_CheckSum env dep, getCheckSumValue_ne_empty dep⟩

end Composer

namespace Npm

open Composer

/-! ## The walk over the installed tree ends -/

theorem collect_eq_some {α : Type} (l : List (Option α)) (h : ∀ x ∈ l, x.isSome = true) :
    ∃ r, collect l = some r ∧ r.length = l.length := by
  induction l with
  | nil => exact ⟨[], rfl, rfl⟩
  | cons x xs ih =>
    obtain ⟨r, hr, hlen⟩ := ih fun y hy => h y (List.mem_cons_of_mem _ hy)
    cases x with
    | none => simpa using h none (List.mem_cons_self _ _)
    | some a => exact ⟨a :: r, by simp [collect, hr], by simp [hlen]⟩

theorem countP_lt_of_mem {α : Type} (p q : α → Bool) (l : List α) (a : α)
    (hpq : ∀ x, p x = true → q x = true) (ha : a ∈ l) (hqa : q a = true) (hpa : p a = false) :
    l.countP p < l.countP q := by
  induction l with
  | nil => simp at ha
  | cons x xs ih =>
    rw [List.countP_cons, List.countP_cons]
    have hmono : xs.countP p ≤ xs.countP q := List.countP_mono_left fun y _ => hpq y
    have h01 : ∀ b : Bool, (if b = true then 1 else 0) ≤ 1 := by
      intro b
      cases b <;> simp
    rcases List.mem_cons.mp ha with hax | hmem
    · have hqx : (if q x = true then 1 else 0) = 1 := by rw [← hax, hqa]; rfl
      have hpx : (if p x = true then 1 else 0) = 0 := by rw [← hax, hpa]; rfl
      omega
    · have hlt := ih hmem
      by_cases hpx : p x = true
      · have h1 : (if p x = true then 1 else 0) = 1 := by rw [hpx]; rfl
        have h2 : (if q x = true then 1 else 0) = 1 := by rw [hpq x hpx]; rfl
        omega
      · have h1 : (if p x = true then 1 else 0) = 0 := by simp [hpx]
        omega

theorem unvisited_le (t : InstalledTree) (visited : List (String × String)) :
    unvisited t visited ≤ t.installed.length :=
  List.countP_le_length _

theorem unvisited_cons_lt (t : InstalledTree) (visited : List (String × String))
    (q : InstalledPackage) (hq : q ∈ t.installed)
    (hnew : visited.contains (visitKey q) = false) :
    unvisited t (visitKey q :: visited) < unvisited t visited := by
  unfold unvisited
  have hnm : visitKey q ∉ visited := by simpa using hnew
  apply countP_lt_of_mem _ _ _ q _ hq
  · simpa using hnm
  · simp
  · intro x hx
    simp only [List.contains_cons, Bool.not_eq_true', Bool.or_eq_false_iff] at hx
    simp only [hx.2, Bool.not_false]

theorem resolve_mem (t : InstalledTree) (p q : InstalledPackage) (dep : String)
    (h : resolve t p dep = some q) : q ∈ t.installed :=
  List.mem_of_find?_eq_some h

theorem walkDependencies_isSome (t : InstalledTree) :
    ∀ (fuel : Nat) (visited : List (String × String)) (p : InstalledPackage),
      unvisited t visited < fuel → (walkDependencies t fuel visited p).isSome = true := by
  intro fuel
  induction fuel with
  | zero => intro visited p h; omega
  | succ fuel ih =>
    intro visited p h
    unfold walkDependencies
    have hall : ∀ x ∈ ((p.dependencies.filterMap fun dep =>
        (resolve t p dep).map fun q => (dep, q)).map fun entry =>
          if visited.contains (visitKey entry.2) then
            some (entry.1, moduleOfInstalled entry.2 false [])
          else
            (walkDependencies t fuel (visitKey entry.2 :: visited) entry.2).map
              fun sub => (entry.1, moduleOfInstalled entry.2 false sub)),
        x.isSome = true := by
      intro x hx
      obtain ⟨entry, hentry, rfl⟩ := List.mem_map.mp hx
      obtain ⟨dep, -, hdep⟩ := List.mem_filterMap.mp hentry
      obtain ⟨q, hq, rfl⟩ := Option.map_eq_some'.mp hdep
      dsimp only
      by_cases hv : visited.contains (visitKey q) = true
      · rw [if_pos hv]
        rfl
      · have hv2 : visited.contains (visitKey q) = false := by simpa using hv
        have hlt := unvisited_cons_lt t visited q (resolve_mem t p q dep hq) hv2
        have hsome := ih (visitKey q :: visited) q (by omega)
        obtain ⟨sub, hsub⟩ := Option.isSome_iff_exists.mp hsome
        rw [if_neg hv, hsub]
        rfl
    obtain ⟨r, hr, -⟩ := collect_eq_some _ hall
    rw [hr]
    rfl

/-! ## Claim about the dependency-tree listing -/

theorem ListModulesWithDeps_mutual_example :
    (ListModulesWithDeps mutualTree).map
        (fun ms => ms.map fun m =>
          (m.Name, m.Modules.map fun e =>
            (e.1, e.2.Name, e.2.Modules.map fun f => (f.1, f.2.Name, f.2.Modules.length))))
      = some
        [("app-1.0.0", [("ping", "ping-1.0.0", [("pong", "pong-2.0.0", 1)])]),
         ("ping-1.0.0", [("pong", "pong-2.0.0", [("ping", "ping-1.0.0", 0)])]),
         ("pong-2.0.0", [("ping", "ping-1.0.0", [("pong", "pong-2.0.0", 0)])])] := by
  rfl

/-- C18: for every installed package tree the dependency-tree listing ends
within its depth bound and returns a module list, the root and one module per
installed package, also when installed packages depend on each other; every
walk from a package ends as soon as the bound exceeds the number of installed
packages not yet on the branch. -/
theorem ListModulesWithDeps_terminates (t : InstalledTree) :
    (∃ ms, ListModulesWithDeps t = some ms ∧ ms.length = t.installed.length + 1)
      ∧ ∀ (fuel : Nat) (visited : List (String × String)) (p : InstalledPackage),
          unvisited t visited < fuel → ∃ modules, walkDependencies t fuel visited p = some modules := by
  constructor
  · unfold ListModulesWithDeps
    have hall : ∀ x ∈ (((t.root, true) :: t.installed.map fun p => (p, false)).map fun entry =>
        (walkDependencies t (t.installed.length + 1) [visitKey entry.1] entry.1).map
          fun sub => moduleOfInstalled entry.1 entry.2 sub), x.isSome = true := by
      intro x hx
      obtain ⟨entry, -, rfl⟩ := List.mem_map.mp hx
      have hsome := walkDependencies_isSome t (t.installed.length + 1) [visitKey entry.1] entry.1
        (Nat.lt_succ_of_le (unvisited_le t _))
      obtain ⟨sub, hsub⟩ := Option.isSome_iff_exists.mp hsome
      simp [hsub]
    obtain ⟨r, hr, hlen⟩ := collect_eq_some _ hall
    exact ⟨r, hr, by simp [hlen]⟩
  · intro fuel visited p h
    exact Option.isSome_iff_exists.mp (walkDependencies_isSome t fuel visited p h)

/-- C18 on two installed packages that depend on each other: the listing
returns three modules. -/
theorem ListModulesWithDeps_terminates_witness :
    ∃ ms, ListModulesWithDeps mutualTree = some ms ∧ ms.length = 2 + 1 :=
  (ListModulesWithDeps_terminates mutualTree).1

end Npm
